import Mathlib

/-
  Verification of the sqlfluff rule L006 ("Operators should be surrounded by
  a single whitespace") against its specification.

  The rule's entry point is `Rule_L006._eval` in
  `src/sqlfluff/core/rules/std/L006.py`.  It inspects the direct children of
  one CST segment and returns lint results ("diagnostics"), each carrying a
  single "create" fix that inserts a one-space whitespace segment.

  The embedding below translates `_eval` into the function `eval_L006`.
  Helper operations that `_eval` calls but whose definitions live outside the
  provided source (segment attribute access, `matches_target_tuples`,
  `iter_raw_seg`, `make_whitespace`) are modelled from the specification and
  are marked as such in their doc comments.
-/

namespace L006

/-- Character-level test that `t` is a leading substring of `s`
(the Python `str.startswith`). -/
def strStartsWith (s t : String) : Bool :=
  s.data.take t.data.length == t.data

/-- Character-level test that `t` is a trailing substring of `s`
(the Python `str.endswith`). -/
def strEndsWith (s t : String) : Bool :=
  (s.data.drop (s.data.length - t.data.length) == t.data)
    && decide (t.data.length ≤ s.data.length)

/-- The Python slice `s[:n]` on a string. -/
def rawTake (s : String) (n : Nat) : String :=
  String.mk (s.data.take n)

/-- The Python slice `s[-n:]` on a string. -/
def rawTakeRight (s : String) (n : Nat) : String :=
  String.mk (s.data.drop (s.data.length - n))

/-- A CST segment (spec §3): type tags, a segment name, the whitespace /
code / meta flags, the raw source text, the `source_str` carried by meta
(template placeholder) segments, and the ordered list of direct children
(empty for a leaf / raw segment). -/
inductive Segment : Type where
  | node (typeTags : List String) (name : String)
      (is_whitespace : Bool) (is_code : Bool) (is_meta : Bool)
      (raw : String) (source_str : String)
      (segments : List Segment) : Segment

/-- The hierarchical type tags of a segment. -/
def Segment.typeTags : Segment → List String
  | .node tt _ _ _ _ _ _ _ => tt

/-- The name of a segment (e.g. "start_bracket"). -/
def Segment.name : Segment → String
  | .node _ nm _ _ _ _ _ _ => nm

/-- Whether the segment is a whitespace segment. -/
def Segment.is_whitespace : Segment → Bool
  | .node _ _ ws _ _ _ _ _ => ws

/-- Whether the segment is a code segment. -/
def Segment.is_code : Segment → Bool
  | .node _ _ _ cd _ _ _ _ => cd

/-- Whether the segment is a meta (zero-width structural or template
placeholder) segment. -/
def Segment.is_meta : Segment → Bool
  | .node _ _ _ _ mt _ _ _ => mt

/-- The raw source text of the segment. -/
def Segment.raw : Segment → String
  | .node _ _ _ _ _ rw _ _ => rw

/-- For meta segments, the original template text they represent. -/
def Segment.source_str : Segment → String
  | .node _ _ _ _ _ _ ss _ => ss

/-- The ordered list of direct children. -/
def Segment.segments : Segment → List Segment
  | .node _ _ _ _ _ _ _ cs => cs

/-- Modelled from the spec: `seg.is_type(t)` holds when the type tag `t` is
among the segment's hierarchical type classification (spec §3,
"type_tags: set of string"). -/
def Segment.is_type (seg : Segment) (t : String) : Bool :=
  seg.typeTags.contains t

/-- Modelled from the spec (§4.1): synthesis of a new whitespace segment is a
pure construction producing a leaf with `is_whitespace = true`,
`is_code = false`, `is_meta = false` and the given raw text.  This models
`self.make_whitespace(raw=...)` from the source. -/
def make_whitespace (raw : String) : Segment :=
  .node ["whitespace"] "whitespace" true false false raw "" []

mutual

/-- Modelled from the spec (§4.1, `flatten_to_leaves`): the depth-first
iterator over the raw (leaf) segments of a subtree, in left-to-right order.
This models `sub_seg.iter_raw_seg()` from the source. -/
def iter_raw_seg : Segment → List Segment
  | .node tt nm ws cd mt rw ss [] => [.node tt nm ws cd mt rw ss []]
  | .node _ _ _ _ _ _ _ (c :: cs) => iter_raw_list (c :: cs)

/-- Depth-first leaf iteration over a list of segments. -/
def iter_raw_list : List Segment → List Segment
  | [] => []
  | c :: cs => iter_raw_seg c ++ iter_raw_list cs

end

/-- Modelled from the spec (§3, Match Predicate): a segment matches a list of
(attribute, value) target tuples when some tuple is satisfied; the only
attribute used by this rule is "type", satisfied when the segment carries the
given type tag.  This models `self.matches_target_tuples(seg, targets)`. -/
def matches_target_tuples (seg : Segment) (targets : List (String × String)) : Bool :=
  targets.any fun tp => tp.1 == "type" && seg.is_type tp.2

/-- The `_target_elems` of `Rule_L006`. -/
def target_elems : List (String × String) :=
  [("type", "binary_operator"), ("type", "comparison_operator")]

/-- A proposed tree edit: the operation (always "create" in this rule), the
anchor segment before which the edit is inserted, and the new segment. -/
structure LintFix where
  op : String
  anchor : Segment
  edit : Segment

/-- A diagnostic produced by the rule: the anchor segment, a description and
the attached fixes.  The anchorless `LintResult()` that the Python code uses
to signal "no violation" is modelled by returning an empty list of
diagnostics. -/
structure LintResult where
  anchor : Segment
  description : String
  fixes : List LintFix

/-- The sibling scan of `_eval` (L006.py lines 109-115 and 164-170): walk the
given sibling list, skip every segment typed "indent", and stop at the first
non-indent segment; `none` when the scan runs off the list. -/
def first_non_indent : List Segment → Option Segment
  | [] => none
  | s :: rest => if s.is_type "indent" then first_non_indent rest else some s

/-- The "before" gap condition on the resolved preceding neighbor (L006.py
lines 117-136): it is a gap when the neighbor is not whitespace, not an
opening bracket, and not a meta placeholder whose `source_str` ends with a
space or a newline. -/
def raw_gap_before (prev_seg : Segment) : Bool :=
  !prev_seg.is_whitespace
    && !(strEndsWith prev_seg.name "_bracket"
          && strStartsWith prev_seg.name "start_")
    && !(prev_seg.is_meta
          && (strEndsWith prev_seg.source_str " "
                || strEndsWith prev_seg.source_str "\n"))

/-- The "after" gap condition on the resolved following neighbor (L006.py
lines 172-190): it is a gap when the neighbor is not whitespace, not a
closing bracket, and not a meta placeholder whose `source_str` starts with a
space or a newline. -/
def raw_gap_after (next_seg : Segment) : Bool :=
  !next_seg.is_whitespace
    && !(strEndsWith next_seg.name "_bracket"
          && strStartsWith next_seg.name "end_")
    && !(next_seg.is_meta
          && (strStartsWith next_seg.source_str " "
                || strStartsWith next_seg.source_str "\n"))

/-- The "before" half of `_eval` (L006.py lines 106-159): scan backwards from
index `idx` in the parent's child list `segs` for the nearest non-indent
sibling; if it exists and satisfies the gap condition, emit one diagnostic
anchored at `before_anchor` whose fix inserts a single space before
`sub_seg` (the child at `idx`). -/
def before_check_viol (segs : List Segment) (idx : Nat)
    (sub_seg before_anchor : Segment) : List LintResult :=
  match first_non_indent (segs.take idx).reverse with
  | none => []
  | some prev_seg =>
    if raw_gap_before prev_seg
    then [{ anchor := before_anchor,
            description := "Missing whitespace before "
              ++ rawTake before_anchor.raw 10,
            fixes := [{ op := "create", anchor := sub_seg,
                        edit := make_whitespace " " }] }]
    else []

/-- The "after" half of `_eval` (L006.py lines 161-214): scan forwards from
index `idx` for the nearest non-indent sibling; if it exists and satisfies
the gap condition, emit one diagnostic anchored at `after_anchor` whose fix
inserts a single space before the resolved neighbor. -/
def after_check_viol (segs : List Segment) (idx : Nat)
    (after_anchor : Segment) : List LintResult :=
  match first_non_indent (segs.drop (idx + 1)) with
  | none => []
  | some next_seg =>
    if raw_gap_after next_seg
    then [{ anchor := after_anchor,
            description := "Missing whitespace after "
              ++ rawTakeRight after_anchor.raw 10,
            fixes := [{ op := "create", anchor := next_seg,
                        edit := make_whitespace " " }] }]
    else []

/-- The target detection of `_eval` (L006.py lines 75-104): the pair of
optional (before-check anchor, after-check anchor) for one child.  A child
matching the target tuples is checked on both sides anchored at itself;
otherwise a compound child with more than one raw leaf is checked before when
its leading leaf matches (anchored at that leaf) and after when its trailing
leaf matches. -/
def target_anchors (sub_seg : Segment) : Option Segment × Option Segment :=
  if matches_target_tuples sub_seg target_elems then
    (some sub_seg, some sub_seg)
  else if sub_seg.segments.isEmpty then
    (none, none)
  else
    let raw_list := iter_raw_seg sub_seg
    if raw_list.length > 1 then
      (match raw_list.head? with
        | some leading =>
          if matches_target_tuples leading target_elems then some leading
          else none
        | none => none,
       match raw_list.getLast? with
        | some trailing =>
          if matches_target_tuples trailing target_elems then some trailing
          else none
        | none => none)
    else (none, none)

/-- The per-child body of the `for idx, sub_seg in enumerate(...)` loop of
`_eval` (L006.py lines 63-214): whitespace and non-code children are skipped,
then the before- and after-checks run for the detected anchors. -/
def eval_child (segs : List Segment) (idx : Nat) (sub_seg : Segment) :
    List LintResult :=
  if sub_seg.is_whitespace then []
  else if !sub_seg.is_code then []
  else
    (match (target_anchors sub_seg).1 with
      | some ba => before_check_viol segs idx sub_seg ba
      | none => []) ++
    (match (target_anchors sub_seg).2 with
      | some aa => after_check_viol segs idx aa
      | none => [])

/-- `Rule_L006._eval` (L006.py lines 39-217) as the list of diagnostics it
returns: a parent with at most two direct children yields none (the Python
code returns the anchorless `LintResult()`), otherwise the accumulated
violations of every child in order (the Python code returns `None` in place
of an empty list). -/
def eval_L006 (segment : Segment) : List LintResult :=
  if segment.segments.length ≤ 2 then []
  else
    (segment.segments.enum.map fun p =>
      eval_child segment.segments p.1 p.2).flatten

/-- The before-check contribution of the child at index `j`, as a projection
of `eval_child` usable independently of the iteration. -/
def child_before_viol (segs : List Segment) (j : Nat) : List LintResult :=
  match segs[j]? with
  | none => []
  | some c =>
    if c.is_whitespace then []
    else if !c.is_code then []
    else
      match (target_anchors c).1 with
      | some ba => before_check_viol segs j c ba
      | none => []

/-- The after-check contribution of the child at index `j`. -/
def child_after_viol (segs : List Segment) (j : Nat) : List LintResult :=
  match segs[j]? with
  | none => []
  | some c =>
    if c.is_whitespace then []
    else if !c.is_code then []
    else
      match (target_anchors c).2 with
      | some aa => after_check_viol segs j aa
      | none => []

/-- Rebuild a segment with a new list of direct children (the tree splice
performed by the external fix-application layer). -/
def with_segments : Segment → List Segment → Segment
  | .node tt nm ws cd mt rw ss _, cs => .node tt nm ws cd mt rw ss cs

/-- Position of the first non-indent segment in a list, mirroring
`first_non_indent` but returning the index instead of the segment. -/
def idx_non_indent : List Segment → Option Nat
  | [] => none
  | s :: rest =>
    if s.is_type "indent" then (idx_non_indent rest).map (· + 1) else some 0

/-- The index (in the parent's child list) of the resolved following neighbor
of the child at `idx`: the first non-indent sibling after it.  This is the
occurrence at which the after-fix of that child anchors. -/
def next_target_idx (segs : List Segment) (idx : Nat) : Option Nat :=
  (idx_non_indent (segs.drop (idx + 1))).map (fun k => idx + 1 + k)

/-- How many of the fixes proposed by `eval_L006` insert a space immediately
before the child at index `j`: one for a before-violation of the child at `j`
itself (its fix anchors at that child), plus one for every after-violation of
a child `i` whose resolved following neighbor is the occurrence at `j` (its
fix anchors at that neighbor).  Anchors are segment occurrences (Python
object identity), identified here by their index in the child list. -/
def ins_count (segs : List Segment) (j : Nat) : Nat :=
  (if (child_before_viol segs j).isEmpty then 0 else 1) +
  ((List.range segs.length).filter
    (fun i => !(child_after_viol segs i).isEmpty
        && next_target_idx segs i == some j)).length

/-- Expand a list of (insertion count, child) blocks into a child list: each
child is preceded by that many newly created one-space whitespace
segments. -/
def expand_blocks (bs : List (Nat × Segment)) : List Segment :=
  (bs.map fun b => List.replicate b.1 (make_whitespace " ") ++ [b.2]).flatten

/-- Pair every child with the number of spaces the proposed fixes insert
immediately before it. -/
def fix_blocks (segs : List Segment) : List (Nat × Segment) :=
  segs.enum.map fun q => (ins_count segs q.1, q.2)

/-- Apply all fixes proposed by `eval_L006` on `p`: insert a one-space
whitespace segment immediately before each fix anchor in the parent's child
list.  When the rule proposes nothing (in particular for parents with at most
two children) the tree is unchanged. -/
def apply_fixes (p : Segment) : Segment :=
  if p.segments.length ≤ 2 then p
  else with_segments p (expand_blocks (fix_blocks p.segments))

/-- A plain identifier leaf with the given raw text. -/
def idLeaf (r : String) : Segment :=
  .node ["naked_identifier"] "naked_identifier" false true false r "" []

/-- A binary operator leaf "+". -/
def plusLeaf : Segment :=
  .node ["binary_operator"] "binary_operator" false true false "+" "" []

/-- A single-space whitespace leaf. -/
def wsLeaf : Segment :=
  .node ["whitespace"] "whitespace" true false false " " "" []

/-- A zero-width indent marker. -/
def indentLeaf : Segment :=
  .node ["indent"] "indent" false false true "" "" []

/-- An opening bracket leaf. -/
def openBracket : Segment :=
  .node ["start_bracket"] "start_bracket" false true false "(" "" []

/-- A closing bracket leaf. -/
def closeBracket : Segment :=
  .node ["end_bracket"] "end_bracket" false true false ")" "" []

/-- A meta template placeholder whose `source_str` ends with a newline. -/
def metaTrailNL : Segment :=
  .node ["placeholder"] "placeholder" false false true "" "-xy\n" []

/-- A meta template placeholder whose `source_str` starts with a space. -/
def metaLeadSpace : Segment :=
  .node ["placeholder"] "placeholder" false false true "" " xy-" []

/-- An expression segment over the given children, with `raw` equal to the
concatenation of the children's raw text (the CST invariant of spec §3). -/
def parentOf (cs : List Segment) : Segment :=
  .node ["expression"] "expression" false true false
    (String.join (cs.map Segment.raw)) "" cs

/-! ## Helper lemmas -/

theorem before_viol_scan_none (segs : List Segment) (idx : Nat) (sub ba : Segment)
    (h : first_non_indent (segs.take idx).reverse = none) :
    before_check_viol segs idx sub ba = [] := by
  simp [before_check_viol, raw_gap_before, h]

theorem before_viol_scan_ws (segs : List Segment) (idx : Nat) (sub ba prev : Segment)
    (h : first_non_indent (segs.take idx).reverse = some prev)
    (hw : prev.is_whitespace = true) :
    before_check_viol segs idx sub ba = [] := by
  simp [before_check_viol, raw_gap_before, h, hw]

theorem before_viol_scan_bracket (segs : List Segment) (idx : Nat)
    (sub ba prev : Segment)
    (h : first_non_indent (segs.take idx).reverse = some prev)
    (hb : strEndsWith prev.name "_bracket" = true)
    (hs : strStartsWith prev.name "start_" = true) :
    before_check_viol segs idx sub ba = [] := by
  simp [before_check_viol, raw_gap_before, h, hb, hs]

theorem before_viol_scan_meta (segs : List Segment) (idx : Nat)
    (sub ba prev : Segment)
    (h : first_non_indent (segs.take idx).reverse = some prev)
    (hm : prev.is_meta = true)
    (hsrc : strEndsWith prev.source_str " " = true
        ∨ strEndsWith prev.source_str "\n" = true) :
    before_check_viol segs idx sub ba = [] := by
  rcases hsrc with h2 | h2 <;> simp [before_check_viol, raw_gap_before, h, hm, h2]

theorem after_viol_scan_none (segs : List Segment) (idx : Nat) (aa : Segment)
    (h : first_non_indent (segs.drop (idx + 1)) = none) :
    after_check_viol segs idx aa = [] := by
  simp [after_check_viol, raw_gap_after, h]

theorem after_viol_scan_ws (segs : List Segment) (idx : Nat) (aa nxt : Segment)
    (h : first_non_indent (segs.drop (idx + 1)) = some nxt)
    (hw : nxt.is_whitespace = true) :
    after_check_viol segs idx aa = [] := by
  simp [after_check_viol, raw_gap_after, h, hw]

theorem after_viol_scan_bracket (segs : List Segment) (idx : Nat) (aa nxt : Segment)
    (h : first_non_indent (segs.drop (idx + 1)) = some nxt)
    (hb : strEndsWith nxt.name "_bracket" = true)
    (hs : strStartsWith nxt.name "end_" = true) :
    after_check_viol segs idx aa = [] := by
  simp [after_check_viol, raw_gap_after, h, hb, hs]

theorem after_viol_scan_meta (segs : List Segment) (idx : Nat) (aa nxt : Segment)
    (h : first_non_indent (segs.drop (idx + 1)) = some nxt)
    (hm : nxt.is_meta = true)
    (hsrc : strStartsWith nxt.source_str " " = true
        ∨ strStartsWith nxt.source_str "\n" = true) :
    after_check_viol segs idx aa = [] := by
  rcases hsrc with h2 | h2 <;> simp [after_check_viol, raw_gap_after, h, hm, h2]

theorem eval_child_nil (segs : List Segment) (idx : Nat) (c : Segment)
    (hb : ∀ ba, before_check_viol segs idx c ba = [])
    (ha : ∀ aa, after_check_viol segs idx aa = []) :
    eval_child segs idx c = [] := by
  unfold eval_child
  by_cases hw : c.is_whitespace = true
  · simp [hw]
  · simp only [Bool.not_eq_true] at hw
    by_cases hc : c.is_code = true
    · cases (target_anchors c).1 <;> cases (target_anchors c).2 <;>
        simp [hw, hc, hb, ha]
    · simp only [Bool.not_eq_true] at hc
      simp [hw, hc]

theorem eval_child_split (segs : List Segment) (j : Nat) (c : Segment)
    (h : segs[j]? = some c) :
    eval_child segs j c = child_before_viol segs j ++ child_after_viol segs j := by
  unfold eval_child child_before_viol child_after_viol
  rw [h]
  by_cases hw : c.is_whitespace = true
  · simp [hw]
  · simp only [Bool.not_eq_true] at hw
    by_cases hc : c.is_code = true
    · simp [hw, hc]
    · simp only [Bool.not_eq_true] at hc
      simp [hw, hc]

theorem eval_L006_decomp (p : Segment) (h : 2 < p.segments.length) :
    eval_L006 p =
      ((List.range p.segments.length).map fun j =>
        child_before_viol p.segments j ++ child_after_viol p.segments j).flatten := by
  unfold eval_L006
  rw [if_neg (by omega)]
  congr 1
  apply List.ext_getElem?
  intro i
  simp only [List.getElem?_map, List.getElem?_enum]
  cases hc : p.segments[i]? with
  | none =>
    have hlen : p.segments.length ≤ i := by
      simpa using List.getElem?_eq_none_iff.mp hc
    rw [List.getElem?_eq_none_iff.mpr (by simpa using hlen)]
    simp
  | some c =>
    have hlt : i < p.segments.length := by
      by_contra hcon
      rw [List.getElem?_eq_none_iff.mpr (by omega)] at hc
      exact Option.noConfusion hc
    rw [List.getElem?_range hlt]
    simp only [Option.map_some']
    rw [eval_child_split p.segments i c hc]

theorem child_before_viol_length (segs : List Segment) (j : Nat) :
    (child_before_viol segs j).length ≤ 1 := by
  unfold child_before_viol before_check_viol
  repeat' split
  all_goals simp

theorem child_after_viol_length (segs : List Segment) (j : Nat) :
    (child_after_viol segs j).length ≤ 1 := by
  unfold child_after_viol after_check_viol
  repeat' split
  all_goals simp

theorem with_segments_segments (s : Segment) (cs : List Segment) :
    (with_segments s cs).segments = cs := by
  cases s; rfl

theorem expand_blocks_nil : expand_blocks [] = [] := rfl

theorem expand_blocks_cons (b : Nat × Segment) (bs : List (Nat × Segment)) :
    expand_blocks (b :: bs) =
      List.replicate b.1 (make_whitespace " ") ++ b.2 :: expand_blocks bs := by
  simp [expand_blocks]

theorem expand_blocks_append (bs₁ bs₂ : List (Nat × Segment)) :
    expand_blocks (bs₁ ++ bs₂) = expand_blocks bs₁ ++ expand_blocks bs₂ := by
  simp [expand_blocks]

theorem space_not_indent : (make_whitespace " ").is_type "indent" = false := rfl

theorem first_non_indent_replicate_space (n : Nat) (l : List Segment) :
    first_non_indent (List.replicate n (make_whitespace " ") ++ l) =
      if n = 0 then first_non_indent l else some (make_whitespace " ") := by
  cases n with
  | zero => simp
  | succ m => simp [first_non_indent, space_not_indent]

theorem scan_back_expand (bs : List (Nat × Segment)) :
    first_non_indent (expand_blocks bs).reverse = some (make_whitespace " ") ∨
    first_non_indent (expand_blocks bs).reverse =
      first_non_indent (bs.map Prod.snd).reverse := by
  induction bs using List.reverseRecOn with
  | nil => right; rfl
  | append_singleton bs b ih =>
    have hrev : (expand_blocks (bs ++ [b])).reverse =
        b.2 :: (List.replicate b.1 (make_whitespace " ") ++ (expand_blocks bs).reverse) := by
      rw [expand_blocks_append, expand_blocks_cons, expand_blocks_nil]
      simp
    have hrev2 : ((bs ++ [b]).map Prod.snd).reverse =
        b.2 :: (bs.map Prod.snd).reverse := by simp
    rw [hrev, hrev2]
    by_cases hind : b.2.is_type "indent" = true
    · simp only [first_non_indent, hind, if_true]
      rw [first_non_indent_replicate_space]
      by_cases hz : b.1 = 0
      · simpa [hz] using ih
      · simp [hz]
    · simp only [Bool.not_eq_true] at hind
      simp [first_non_indent, hind]

theorem scan_fwd_expand (bs : List (Nat × Segment)) :
    first_non_indent (expand_blocks bs) = some (make_whitespace " ") ∨
    (first_non_indent (expand_blocks bs) = first_non_indent (bs.map Prod.snd) ∧
     ∀ k, idx_non_indent (bs.map Prod.snd) = some k →
       ∃ b, bs[k]? = some b ∧ b.1 = 0) := by
  induction bs with
  | nil => right; exact ⟨rfl, fun k h => by simp [idx_non_indent] at h⟩
  | cons b bs ih =>
    obtain ⟨n, s2⟩ := b
    rw [expand_blocks_cons]
    by_cases hz : n = 0
    · subst hz
      by_cases hind : s2.is_type "indent" = true
      · rw [List.replicate, List.nil_append]
        simp only [List.map_cons, first_non_indent, idx_non_indent, hind, if_true]
        rcases ih with h | ⟨h1, h2⟩
        · left; exact h
        · right
          refine ⟨h1, fun k hk => ?_⟩
          rcases Option.map_eq_some'.mp hk with ⟨k', hk', rfl⟩
          rcases h2 k' hk' with ⟨b', hb', hz'⟩
          exact ⟨b', by simpa using hb', hz'⟩
      · simp only [Bool.not_eq_true] at hind
        rw [List.replicate, List.nil_append]
        right
        constructor
        · simp [first_non_indent, idx_non_indent, hind]
        · intro k hk
          simp only [List.map_cons, idx_non_indent, hind, Bool.false_eq_true,
            if_false, Option.some_inj] at hk
          exact ⟨(0, s2), by simp [← hk], rfl⟩
    · left
      rw [first_non_indent_replicate_space]
      simp [hz]

theorem expand_blocks_pos (bs : List (Nat × Segment)) :
    ∀ (k : Nat) (c : Segment), (expand_blocks bs)[k]? = some c →
      c.is_whitespace = false →
      ∃ j b, bs[j]? = some b ∧ b.2 = c ∧
        (expand_blocks bs).take k =
          expand_blocks (bs.take j) ++ List.replicate b.1 (make_whitespace " ") ∧
        (expand_blocks bs).drop (k + 1) = expand_blocks (bs.drop (j + 1)) := by
  induction bs with
  | nil => intro k c hk _; simp [expand_blocks_nil] at hk
  | cons b bs ih =>
    intro k c hk hcw
    obtain ⟨n, s2⟩ := b
    rw [expand_blocks_cons] at hk
    have hsplit : List.replicate n (make_whitespace " ") ++ s2 :: expand_blocks bs =
        (List.replicate n (make_whitespace " ") ++ [s2]) ++ expand_blocks bs := by
      simp
    rcases Nat.lt_trichotomy k n with hlt | heq | hgt
    · rw [List.getElem?_append, if_pos (by simpa using hlt)] at hk
      rw [List.getElem?_replicate, if_pos hlt] at hk
      rw [Option.some_inj] at hk
      rw [← hk] at hcw
      exact absurd hcw (by simp [make_whitespace, Segment.is_whitespace])
    · refine ⟨0, (n, s2), by simp, ?_, ?_, ?_⟩
      · rw [List.getElem?_append, if_neg (by simp [heq])] at hk
        simp only [List.length_replicate, heq, Nat.sub_self,
          List.getElem?_cons_zero, Option.some_inj] at hk
        exact hk
      · rw [expand_blocks_cons, heq]
        have ht : (List.replicate n (make_whitespace " ") ++
            s2 :: expand_blocks bs).take n =
            List.replicate n (make_whitespace " ") := List.take_left' (by simp)
        rw [ht]
        simp [expand_blocks_nil]
      · rw [expand_blocks_cons, heq, hsplit]
        have hd : ((List.replicate n (make_whitespace " ") ++ [s2]) ++
            expand_blocks bs).drop (n + 1) =
            expand_blocks bs := List.drop_left' (by simp)
        rw [hd]
        rfl
    · obtain ⟨m, rfl⟩ : ∃ m, k = n + 1 + m := ⟨k - n - 1, by omega⟩
      rw [List.getElem?_append, if_neg (by simp; omega)] at hk
      simp only [List.length_replicate] at hk
      have hidx : n + 1 + m - n = m + 1 := by omega
      rw [hidx, List.getElem?_cons_succ] at hk
      rcases ih m c hk hcw with ⟨j', b', h1, h2, h3, h4⟩
      have hlenA : (List.replicate n (make_whitespace " ") ++ [s2]).length = n + 1 := by
        simp
      refine ⟨j' + 1, b', by simpa using h1, h2, ?_, ?_⟩
      · rw [expand_blocks_cons, hsplit]
        have hadd : n + 1 + m =
            (List.replicate n (make_whitespace " ") ++ [s2]).length + m := by
          rw [hlenA]
        rw [hadd, List.take_append, h3, List.take_succ_cons, expand_blocks_cons]
        simp
      · rw [expand_blocks_cons, hsplit]
        have hadd : n + 1 + m + 1 =
            (List.replicate n (make_whitespace " ") ++ [s2]).length + (m + 1) := by
          rw [hlenA]; omega
        rw [hadd, List.drop_append, h4, List.drop_succ_cons]

theorem fix_blocks_map_snd (segs : List Segment) :
    (fix_blocks segs).map Prod.snd = segs := by
  unfold fix_blocks
  rw [List.map_map]
  exact List.enum_map_snd segs

theorem fix_blocks_getElem (segs : List Segment) (j : Nat) :
    (fix_blocks segs)[j]? = segs[j]?.map (fun c => (ins_count segs j, c)) := by
  unfold fix_blocks
  rw [List.getElem?_map, List.getElem?_enum]
  cases segs[j]? <;> rfl

theorem ins_count_pos_of_before (segs : List Segment) (j : Nat)
    (h : (child_before_viol segs j).isEmpty = false) :
    1 ≤ ins_count segs j := by
  unfold ins_count
  rw [h]
  simp only [Bool.false_eq_true, if_false]
  omega

theorem idx_non_indent_none_iff (l : List Segment) :
    idx_non_indent l = none ↔ first_non_indent l = none := by
  induction l with
  | nil => simp [idx_non_indent, first_non_indent]
  | cons s rest ih =>
    by_cases h : s.is_type "indent" = true
    · simp [idx_non_indent, first_non_indent, h, ih]
    · simp only [Bool.not_eq_true] at h
      simp [idx_non_indent, first_non_indent, h]

theorem child_after_viol_index (segs : List Segment) (i : Nat)
    (h : (child_after_viol segs i).isEmpty = false) :
    i < segs.length := by
  by_contra hcon
  have : segs[i]? = none := List.getElem?_eq_none_iff.mpr (by omega)
  unfold child_after_viol at h
  rw [this] at h
  simp at h

theorem ins_count_pos_of_after (segs : List Segment) (i m : Nat)
    (h : (child_after_viol segs i).isEmpty = false)
    (hm : next_target_idx segs i = some m) :
    1 ≤ ins_count segs m := by
  have hi : i < segs.length := child_after_viol_index segs i h
  have hmem : i ∈ (List.range segs.length).filter
      (fun i => !(child_after_viol segs i).isEmpty
        && next_target_idx segs i == some m) := by
    apply List.mem_filter.mpr
    refine ⟨List.mem_range.mpr hi, ?_⟩
    simp [h, hm]
  have hpos : 0 < ((List.range segs.length).filter
      (fun i => !(child_after_viol segs i).isEmpty
        && next_target_idx segs i == some m)).length :=
    List.length_pos.mpr (List.ne_nil_of_mem hmem)
  unfold ins_count
  omega

theorem before_check_viol_eq_nil_iff (segs : List Segment) (idx : Nat)
    (sub ba : Segment) :
    before_check_viol segs idx sub ba = [] ↔
      ∀ prev, first_non_indent (segs.take idx).reverse = some prev →
        raw_gap_before prev = false := by
  unfold before_check_viol
  cases h : first_non_indent (segs.take idx).reverse with
  | none => simp
  | some prev =>
    by_cases hg : raw_gap_before prev = true
    · simp [hg]
    · simp only [Bool.not_eq_true] at hg
      simp [hg]

theorem after_check_viol_eq_nil_iff (segs : List Segment) (idx : Nat)
    (aa : Segment) :
    after_check_viol segs idx aa = [] ↔
      ∀ nxt, first_non_indent (segs.drop (idx + 1)) = some nxt →
        raw_gap_after nxt = false := by
  unfold after_check_viol
  cases h : first_non_indent (segs.drop (idx + 1)) with
  | none => simp
  | some nxt =>
    by_cases hg : raw_gap_after nxt = true
    · simp [hg]
    · simp only [Bool.not_eq_true] at hg
      simp [hg]

theorem space_gap_false : raw_gap_before (make_whitespace " ") = false ∧
    raw_gap_after (make_whitespace " ") = false := by
  constructor <;> rfl

theorem child_before_viol_eq (segs : List Segment) (j : Nat) (c ba : Segment)
    (hc : segs[j]? = some c) (hw : c.is_whitespace = false)
    (hcd : c.is_code = true) (hta : (target_anchors c).1 = some ba) :
    child_before_viol segs j = before_check_viol segs j c ba := by
  unfold child_before_viol
  rw [hc]
  simp only [hw, hcd, Bool.not_true, Bool.false_eq_true, if_false]
  rw [hta]

theorem child_after_viol_eq (segs : List Segment) (j : Nat) (c aa : Segment)
    (hc : segs[j]? = some c) (hw : c.is_whitespace = false)
    (hcd : c.is_code = true) (hta : (target_anchors c).2 = some aa) :
    child_after_viol segs j = after_check_viol segs j aa := by
  unfold child_after_viol
  rw [hc]
  simp only [hw, hcd, Bool.not_true, Bool.false_eq_true, if_false]
  rw [hta]

theorem list_isEmpty_eq_nil (l : List LintResult) (h : l.isEmpty = true) :
    l = [] := by
  cases l with
  | nil => rfl
  | cons x xs => simp [List.isEmpty] at h

/-! ## Claims -/

/-- C1: for every parent whose direct children are exactly the code leaves
"a", "+", "b" — ordinary non-bracket, non-meta, non-indent leaves, the middle
one matching the operator predicate with raw text "+" and the outer two not
matching it — `eval_L006` returns exactly the two diagnostics
"Missing whitespace before +" and "Missing whitespace after +", each with a
single create-fix of a one-space whitespace segment; the before-fix anchors
at the checked child itself and the after-fix anchors at the resolved
following neighbor `b`. -/
theorem separate_operator_leaf_two_diagnostics
    (p a op b : Segment)
    (hp : p.segments = [a, op, b])
    (haL : a.segments = []) (haC : a.is_code = true) (haW : a.is_whitespace = false)
    (haM : a.is_meta = false) (haI : a.is_type "indent" = false)
    (haB : strEndsWith a.name "_bracket" = false)
    (haT : matches_target_tuples a target_elems = false)
    (hoL : op.segments = []) (hoC : op.is_code = true) (hoW : op.is_whitespace = false)
    (hoT : matches_target_tuples op target_elems = true)
    (hoR : op.raw = "+")
    (hbL : b.segments = []) (hbC : b.is_code = true) (hbW : b.is_whitespace = false)
    (hbM : b.is_meta = false) (hbI : b.is_type "indent" = false)
    (hbB : strEndsWith b.name "_bracket" = false)
    (hbT : matches_target_tuples b target_elems = false) :
    eval_L006 p =
      [{ anchor := op, description := "Missing whitespace before +",
         fixes := [{ op := "create", anchor := op, edit := make_whitespace " " }] },
       { anchor := op, description := "Missing whitespace after +",
         fixes := [{ op := "create", anchor := b, edit := make_whitespace " " }] }] := by
  simp only [eval_L006, hp, List.length_cons, List.length_nil, List.enum, List.enumFrom,
    List.map, List.flatten]
  norm_num
  simp only [eval_child, haW, haC, hoW, hoC, hbW, hbC, target_anchors, haT, hoT, hbT,
    haL, hoL, hbL, List.isEmpty_nil, if_true, if_false, Bool.not_true, Bool.not_false,
    before_check_viol, after_check_viol, raw_gap_before, raw_gap_after,
      first_non_indent, List.take, List.drop,
    List.reverse_cons, List.reverse_nil, List.nil_append, List.append_nil,
    haI, hbI, Bool.false_eq_true, haB, hbB, haM, hbM, Bool.false_and, Bool.and_false,
    Bool.not_false, Bool.or_false, hoR]
  simp [rawTake, rawTakeRight]

/-- Witness for C1 at the concrete tree with children `a`, `+`, `b`. -/
theorem separate_operator_leaf_two_diagnostics_witness :
    eval_L006 (parentOf [idLeaf "a", plusLeaf, idLeaf "b"]) =
      [{ anchor := plusLeaf, description := "Missing whitespace before +",
         fixes := [{ op := "create", anchor := plusLeaf,
                     edit := make_whitespace " " }] },
       { anchor := plusLeaf, description := "Missing whitespace after +",
         fixes := [{ op := "create", anchor := idLeaf "b",
                     edit := make_whitespace " " }] }] :=
  separate_operator_leaf_two_diagnostics _ _ _ _ rfl rfl rfl rfl rfl rfl rfl rfl
    rfl rfl rfl rfl rfl rfl rfl rfl rfl rfl rfl rfl

/-- C2 counterexample: for children `["a", " ", "+b"]` with `"+b"` a compound
whose first leaf is the operator "+" and whose second leaf is not, the code
returns zero diagnostics, not the single "Missing whitespace after +" the
claim asserts: the leading "+" only triggers a before-check, which the
whitespace neighbor suppresses, and the trailing leaf "b" does not match, so
no after-check runs. -/
theorem compound_after_scenario_counterexample :
    eval_L006 (parentOf [idLeaf "a", wsLeaf, parentOf [plusLeaf, idLeaf "b"]]) = [] ∧
    (eval_L006 (parentOf [idLeaf "a", wsLeaf,
      parentOf [plusLeaf, idLeaf "b"]])).length ≠ 1 := by
  have h : eval_L006 (parentOf [idLeaf "a", wsLeaf,
      parentOf [plusLeaf, idLeaf "b"]]) = [] := rfl
  exact ⟨h, by rw [h]; decide⟩

/-- C2 amended: for every parent whose direct children are
`["a", " ", "+b"]`, with a whitespace middle child and `"+b"` a compound
whose first leaf matches the operator predicate and whose second leaf does
not, `eval_L006` yields zero diagnostics: the whitespace neighbor suppresses
the before-check of the leading "+", and no after-check arises because the
trailing leaf does not match. -/
theorem compound_after_ws_scenario_no_diagnostics
    (p a w comp plus bl : Segment)
    (hp : p.segments = [a, w, comp])
    (hwW : w.is_whitespace = true) (hwI : w.is_type "indent" = false)
    (_hcS : comp.segments = [plus, bl])
    (_hcT : matches_target_tuples comp target_elems = false)
    (_hpL : plus.segments = []) (_hbL : bl.segments = [])
    (_hpT : matches_target_tuples plus target_elems = true)
    (_hbT : matches_target_tuples bl target_elems = false) :
    eval_L006 p = [] := by
  have e0 : eval_child [a, w, comp] 0 a = [] :=
    eval_child_nil _ _ _
      (fun ba => before_viol_scan_none [a, w, comp] 0 _ _ rfl)
      (fun aa => after_viol_scan_ws [a, w, comp] 0 _ w
        (by simp [first_non_indent, hwI]) hwW)
  have e1 : eval_child [a, w, comp] 1 w = [] := by
    simp [eval_child, hwW]
  have e2 : eval_child [a, w, comp] 2 comp = [] :=
    eval_child_nil _ _ _
      (fun ba => before_viol_scan_ws [a, w, comp] 2 _ _ w
        (by simp [first_non_indent, hwI]) hwW)
      (fun aa => after_viol_scan_none [a, w, comp] 2 _ rfl)
  simp only [eval_L006, hp, List.length_cons, List.length_nil, List.enum,
    List.enumFrom, List.map, List.flatten]
  norm_num
  simp [e0, e1, e2]

/-- Witness for the amended C2 at the concrete tree. -/
theorem compound_after_ws_scenario_no_diagnostics_witness :
    eval_L006 (parentOf [idLeaf "a", wsLeaf, parentOf [plusLeaf, idLeaf "b"]]) = [] :=
  compound_after_ws_scenario_no_diagnostics _ _ _ _ _ _ rfl rfl rfl rfl rfl rfl rfl
    rfl rfl

/-- C3: a side-check whose resolved neighbor is a bracket token emits no
diagnostic for that side: a before-check is suppressed when the neighbor's
name ends with "_bracket" and starts with "start_", and an after-check is
suppressed when the neighbor's name ends with "_bracket" and starts with
"end_". -/
theorem bracket_neighbor_suppression :
    (∀ (segs : List Segment) (idx : Nat) (sub ba prev : Segment),
        first_non_indent (segs.take idx).reverse = some prev →
        strEndsWith prev.name "_bracket" = true →
        strStartsWith prev.name "start_" = true →
        before_check_viol segs idx sub ba = []) ∧
    (∀ (segs : List Segment) (idx : Nat) (aa nxt : Segment),
        first_non_indent (segs.drop (idx + 1)) = some nxt →
        strEndsWith nxt.name "_bracket" = true →
        strStartsWith nxt.name "end_" = true →
        after_check_viol segs idx aa = []) :=
  ⟨fun segs idx sub ba prev h hb hs =>
      before_viol_scan_bracket segs idx sub ba prev h hb hs,
   fun segs idx aa nxt h hb hs =>
      after_viol_scan_bracket segs idx aa nxt h hb hs⟩

/-- Witness for C3: a before-check next to "(" and an after-check next to
")" both emit nothing. -/
theorem bracket_neighbor_suppression_witness :
    before_check_viol [openBracket, plusLeaf] 1 plusLeaf plusLeaf = [] ∧
    after_check_viol [plusLeaf, closeBracket] 0 plusLeaf = [] :=
  ⟨bracket_neighbor_suppression.1 _ _ _ _ _ rfl rfl rfl,
   bracket_neighbor_suppression.2 _ _ _ _ rfl rfl rfl⟩

/-- C4: a side-check whose resolved neighbor is a meta/template segment whose
`source_str` ends (before-check) or starts (after-check) with a space or a
newline emits no diagnostic for that side. -/
theorem meta_whitespace_neighbor_suppression :
    (∀ (segs : List Segment) (idx : Nat) (sub ba prev : Segment),
        first_non_indent (segs.take idx).reverse = some prev →
        prev.is_meta = true →
        (strEndsWith prev.source_str " " = true
          ∨ strEndsWith prev.source_str "\n" = true) →
        before_check_viol segs idx sub ba = []) ∧
    (∀ (segs : List Segment) (idx : Nat) (aa nxt : Segment),
        first_non_indent (segs.drop (idx + 1)) = some nxt →
        nxt.is_meta = true →
        (strStartsWith nxt.source_str " " = true
          ∨ strStartsWith nxt.source_str "\n" = true) →
        after_check_viol segs idx aa = []) :=
  ⟨fun segs idx sub ba prev h hm hsrc =>
      before_viol_scan_meta segs idx sub ba prev h hm hsrc,
   fun segs idx aa nxt h hm hsrc =>
      after_viol_scan_meta segs idx aa nxt h hm hsrc⟩

/-- Witness for C4: a placeholder ending in a newline before the operator and
a placeholder starting with a space after it both emit nothing. -/
theorem meta_whitespace_neighbor_suppression_witness :
    before_check_viol [metaTrailNL, plusLeaf] 1 plusLeaf plusLeaf = [] ∧
    after_check_viol [plusLeaf, metaLeadSpace] 0 plusLeaf = [] :=
  ⟨meta_whitespace_neighbor_suppression.1 _ _ _ _ _ rfl rfl (Or.inr rfl),
   meta_whitespace_neighbor_suppression.2 _ _ _ _ rfl rfl (Or.inl rfl)⟩

/-- C5: the neighbor scan skips every sibling typed "indent" and stops at the
first non-indent sibling (it equals the head of the list with its indent
leaders dropped); in particular, for children `["a", <indent>, "+", "b"]`
with "+" the only operator and no whitespace siblings, `eval_L006` still
reports both missing-whitespace diagnostics across the indent marker. -/
theorem indent_markers_transparent :
    (∀ l : List Segment,
        first_non_indent l = (l.dropWhile (fun s => s.is_type "indent")).head?) ∧
    (∀ (p a ind op b : Segment),
        p.segments = [a, ind, op, b] →
        a.segments = [] → a.is_code = true → a.is_whitespace = false →
        a.is_meta = false → a.is_type "indent" = false →
        strEndsWith a.name "_bracket" = false →
        matches_target_tuples a target_elems = false →
        ind.is_type "indent" = true → ind.is_whitespace = false →
        ind.is_code = false →
        op.segments = [] → op.is_code = true → op.is_whitespace = false →
        matches_target_tuples op target_elems = true → op.raw = "+" →
        b.segments = [] → b.is_code = true → b.is_whitespace = false →
        b.is_meta = false → b.is_type "indent" = false →
        strEndsWith b.name "_bracket" = false →
        matches_target_tuples b target_elems = false →
        eval_L006 p =
          [{ anchor := op, description := "Missing whitespace before +",
             fixes := [{ op := "create", anchor := op,
                         edit := make_whitespace " " }] },
           { anchor := op, description := "Missing whitespace after +",
             fixes := [{ op := "create", anchor := b,
                         edit := make_whitespace " " }] }]) := by
  constructor
  · intro l
    induction l with
    | nil => rfl
    | cons s rest ih =>
      by_cases h : s.is_type "indent" = true
      · simp [first_non_indent, List.dropWhile, h, ih]
      · simp only [Bool.not_eq_true] at h
        simp [first_non_indent, List.dropWhile, h]
  · intro p a ind op b hp haL haC haW haM haI haB haT hiI hiW hiC hoL hoC hoW hoT hoR
      hbL hbC hbW hbM hbI hbB hbT
    simp only [eval_L006, hp, List.length_cons, List.length_nil, List.enum,
      List.enumFrom, List.map, List.flatten]
    norm_num
    simp only [eval_child, haW, haC, hiW, hiC, hoW, hoC, hbW, hbC, target_anchors,
      haT, hoT, hbT, haL, hoL, hbL, List.isEmpty_nil, if_true, if_false,
      Bool.not_true, Bool.not_false,
      before_check_viol, after_check_viol, raw_gap_before, raw_gap_after,
      first_non_indent, List.take, List.drop,
      List.reverse_cons, List.reverse_nil, List.nil_append, List.append_nil,
      List.cons_append,
      haI, hbI, hiI, Bool.false_eq_true, haB, hbB, haM, hbM, Bool.false_and,
      Bool.and_false, Bool.not_false, Bool.or_false, hoR]
    simp [rawTake, rawTakeRight]

/-- Witness for C5 at the concrete tree with an indent marker between `a`
and `+`. -/
theorem indent_markers_transparent_witness :
    eval_L006 (parentOf [idLeaf "a", indentLeaf, plusLeaf, idLeaf "b"]) =
      [{ anchor := plusLeaf, description := "Missing whitespace before +",
         fixes := [{ op := "create", anchor := plusLeaf,
                     edit := make_whitespace " " }] },
       { anchor := plusLeaf, description := "Missing whitespace after +",
         fixes := [{ op := "create", anchor := idLeaf "b",
                     edit := make_whitespace " " }] }] :=
  indent_markers_transparent.2 _ _ _ _ _ rfl rfl rfl rfl rfl rfl rfl rfl rfl rfl
    rfl rfl rfl rfl rfl rfl rfl rfl rfl rfl rfl rfl rfl

/-- C6: `eval_L006` returns an empty diagnostic sequence whenever nothing is
flagged: every parent with at most two direct children yields the empty
sequence, and every parent none of whose children carries a target anchor
yields the empty sequence rather than an error. -/
theorem empty_result_cases :
    (∀ p : Segment, p.segments.length ≤ 2 → eval_L006 p = []) ∧
    (∀ p : Segment, (∀ c ∈ p.segments, target_anchors c = (none, none)) →
      eval_L006 p = []) := by
  have hchild : ∀ (segs : List Segment) (j : Nat),
      (∀ c ∈ segs, target_anchors c = (none, none)) →
      child_before_viol segs j ++ child_after_viol segs j = [] := by
    intro segs j hall
    unfold child_before_viol child_after_viol
    cases hc : segs[j]? with
    | none => simp
    | some c =>
      have hmem := List.getElem?_mem hc
      have := hall c hmem
      by_cases hw : c.is_whitespace = true
      · simp [hw]
      · simp only [Bool.not_eq_true] at hw
        by_cases hcd : c.is_code = true
        · simp [hw, hcd, this]
        · simp only [Bool.not_eq_true] at hcd
          simp [hw, hcd]
  constructor
  · intro p h
    simp [eval_L006, h]
  · intro p hall
    by_cases hlen : p.segments.length ≤ 2
    · simp [eval_L006, hlen]
    · rw [eval_L006_decomp p (by omega)]
      apply List.flatten_eq_nil_iff.mpr
      intro x hx
      rcases List.mem_map.mp hx with ⟨j, _, rfl⟩
      exact hchild p.segments j hall

/-- Witness for C6: a two-child parent and a parent of three plain
identifiers both evaluate to no diagnostics. -/
theorem empty_result_cases_witness :
    eval_L006 (parentOf [idLeaf "a", plusLeaf]) = [] ∧
    eval_L006 (parentOf [idLeaf "a", idLeaf "b", idLeaf "c"]) = [] :=
  ⟨empty_result_cases.1 _ (by decide),
   empty_result_cases.2 _ (by
      intro c hc
      simp only [parentOf, Segment.segments, List.mem_cons, List.not_mem_nil,
        or_false] at hc
      rcases hc with rfl | rfl | rfl <;> rfl)⟩

/-- C7 counterexample: for children `["(", "a", "+b"]` the resolved neighbor
of the operator-leading compound is the identifier "a", not the bracket, so a
"Missing whitespace before +" diagnostic anchored at the leaf "+" is raised,
contradicting the claim that none is. -/
theorem bracket_compound_scenario_counterexample :
    eval_L006 (parentOf [openBracket, idLeaf "a", parentOf [plusLeaf, idLeaf "b"]]) =
      [{ anchor := plusLeaf, description := "Missing whitespace before +",
         fixes := [{ op := "create", anchor := parentOf [plusLeaf, idLeaf "b"],
                     edit := make_whitespace " " }] }] := rfl

/-- C7 amended: given children `["(", "+b", x]` — the operator-leading
compound directly adjacent to the opening bracket — no "before" diagnostic is
raised for the "+". -/
theorem bracket_adjacent_compound_no_before_diag
    (lb comp x plus bl : Segment)
    (hlbB : strEndsWith lb.name "_bracket" = true)
    (hlbS : strStartsWith lb.name "start_" = true)
    (hlbI : lb.is_type "indent" = false)
    (_hcS : comp.segments = [plus, bl])
    (_hpL : plus.segments = []) (_hbL : bl.segments = [])
    (_hpT : matches_target_tuples plus target_elems = true) :
    child_before_viol [lb, comp, x] 1 = [] := by
  have hscan : first_non_indent (([lb, comp, x].take 1).reverse) = some lb := by
    simp [first_non_indent, hlbI]
  unfold child_before_viol
  have h1 : ([lb, comp, x])[1]? = some comp := rfl
  rw [h1]
  by_cases hw : comp.is_whitespace = true
  · simp [hw]
  · simp only [Bool.not_eq_true] at hw
    by_cases hc : comp.is_code = true
    · simp only [hw, hc, Bool.not_true, Bool.false_eq_true, if_false]
      cases hta : (target_anchors comp).1 with
      | none => simp
      | some ba => exact before_viol_scan_bracket _ _ _ _ _ hscan hlbB hlbS
    · simp only [Bool.not_eq_true] at hc
      simp [hw, hc]

/-- Witness for the amended C7 at the concrete tree
`["(", "+b", ")"]`. -/
theorem bracket_adjacent_compound_no_before_diag_witness :
    child_before_viol [openBracket, parentOf [plusLeaf, idLeaf "b"], closeBracket]
      1 = [] :=
  bracket_adjacent_compound_no_before_diag _ _ _ _ _ rfl rfl rfl rfl rfl rfl rfl

/-- C8: a side-check whose resolved neighbor is whitespace emits no
diagnostic for that side; in particular, children
`["a", " ", "+", " ", "b"]` with "+" matching the operator predicate yield
zero diagnostics. -/
theorem whitespace_neighbor_suppression :
    (∀ (segs : List Segment) (idx : Nat) (sub ba prev : Segment),
        first_non_indent (segs.take idx).reverse = some prev →
        prev.is_whitespace = true →
        before_check_viol segs idx sub ba = []) ∧
    (∀ (segs : List Segment) (idx : Nat) (aa nxt : Segment),
        first_non_indent (segs.drop (idx + 1)) = some nxt →
        nxt.is_whitespace = true →
        after_check_viol segs idx aa = []) ∧
    (∀ (p a w1 op w2 b : Segment),
        p.segments = [a, w1, op, w2, b] →
        w1.is_whitespace = true → w1.is_type "indent" = false →
        w2.is_whitespace = true → w2.is_type "indent" = false →
        matches_target_tuples op target_elems = true →
        eval_L006 p = []) := by
  refine ⟨fun segs idx sub ba prev h hw =>
      before_viol_scan_ws segs idx sub ba prev h hw,
    fun segs idx aa nxt h hw => after_viol_scan_ws segs idx aa nxt h hw,
    fun p a w1 op w2 b hp h1W h1I h2W h2I _hoT => ?_⟩
  have e0 : eval_child [a, w1, op, w2, b] 0 a = [] :=
    eval_child_nil _ _ _
      (fun ba => before_viol_scan_none [a, w1, op, w2, b] 0 _ _ rfl)
      (fun aa => after_viol_scan_ws [a, w1, op, w2, b] 0 _ w1
        (by simp [first_non_indent, h1I]) h1W)
  have e1 : eval_child [a, w1, op, w2, b] 1 w1 = [] := by
    simp [eval_child, h1W]
  have e2 : eval_child [a, w1, op, w2, b] 2 op = [] :=
    eval_child_nil _ _ _
      (fun ba => before_viol_scan_ws [a, w1, op, w2, b] 2 _ _ w1
        (by simp [first_non_indent, h1I]) h1W)
      (fun aa => after_viol_scan_ws [a, w1, op, w2, b] 2 _ w2
        (by simp [first_non_indent, h2I]) h2W)
  have e3 : eval_child [a, w1, op, w2, b] 3 w2 = [] := by
    simp [eval_child, h2W]
  have e4 : eval_child [a, w1, op, w2, b] 4 b = [] :=
    eval_child_nil _ _ _
      (fun ba => before_viol_scan_ws [a, w1, op, w2, b] 4 _ _ w2
        (by simp [first_non_indent, h2I]) h2W)
      (fun aa => after_viol_scan_none [a, w1, op, w2, b] 4 _ rfl)
  simp only [eval_L006, hp, List.length_cons, List.length_nil, List.enum,
    List.enumFrom, List.map, List.flatten]
  norm_num
  simp [e0, e1, e2, e3, e4]

/-- Witness for C8: a whitespace neighbor suppresses each side, and the
fully spaced concrete tree yields no diagnostics. -/
theorem whitespace_neighbor_suppression_witness :
    before_check_viol [wsLeaf, plusLeaf] 1 plusLeaf plusLeaf = [] ∧
    after_check_viol [plusLeaf, wsLeaf] 0 plusLeaf = [] ∧
    eval_L006 (parentOf [idLeaf "a", wsLeaf, plusLeaf, wsLeaf, idLeaf "b"]) = [] :=
  ⟨whitespace_neighbor_suppression.1 _ _ _ _ _ rfl rfl,
   whitespace_neighbor_suppression.2.1 _ _ _ _ rfl rfl,
   whitespace_neighbor_suppression.2.2 _ _ _ _ _ _ rfl rfl rfl rfl rfl rfl⟩

/-- C10: for parents that pass the three-children guard, the diagnostics of
`eval_L006` are exactly the per-child contributions concatenated in
increasing order of the triggering child's index, each child contributing its
before-diagnostic (at most one) immediately followed by its after-diagnostic
(at most one). -/
theorem diagnostics_ordered (p : Segment) (h : 2 < p.segments.length) :
    eval_L006 p =
      ((List.range p.segments.length).map fun j =>
        child_before_viol p.segments j ++ child_after_viol p.segments j).flatten ∧
    ∀ j, (child_before_viol p.segments j).length ≤ 1 ∧
         (child_after_viol p.segments j).length ≤ 1 :=
  ⟨eval_L006_decomp p h,
   fun j => ⟨child_before_viol_length p.segments j,
             child_after_viol_length p.segments j⟩⟩

/-- Witness for C10 at the concrete tree with children `a`, `+`, `b`. -/
theorem diagnostics_ordered_witness :
    eval_L006 (parentOf [idLeaf "a", plusLeaf, idLeaf "b"]) =
      ((List.range (parentOf [idLeaf "a", plusLeaf, idLeaf "b"]).segments.length).map
        fun j =>
          child_before_viol (parentOf [idLeaf "a", plusLeaf, idLeaf "b"]).segments j
            ++ child_after_viol (parentOf [idLeaf "a", plusLeaf,
                  idLeaf "b"]).segments j).flatten ∧
    ∀ j, (child_before_viol (parentOf [idLeaf "a", plusLeaf,
            idLeaf "b"]).segments j).length ≤ 1 ∧
         (child_after_viol (parentOf [idLeaf "a", plusLeaf,
            idLeaf "b"]).segments j).length ≤ 1 :=
  diagnostics_ordered _ (by decide)

/-- C9: applying all fixes proposed by `eval_L006` — inserting a one-space
whitespace segment immediately before each fix anchor in the parent's child
list (one before each child with a before-violation, one before the resolved
following neighbor of each child with an after-violation) — and re-running
`eval_L006` on the resulting tree yields an empty diagnostic sequence. -/
theorem fixes_idempotent (p : Segment) : eval_L006 (apply_fixes p) = [] := by
  unfold apply_fixes
  by_cases hlen : p.segments.length ≤ 2
  · rw [if_pos hlen]
    simp [eval_L006, hlen]
  · rw [if_neg hlen]
    have hfseg : (with_segments p (expand_blocks (fix_blocks p.segments))).segments =
        expand_blocks (fix_blocks p.segments) := with_segments_segments _ _
    set segs := p.segments with hsegs
    set bs := fix_blocks segs with hbs
    set fixed := expand_blocks bs with hfixed
    by_cases h2 : fixed.length ≤ 2
    · simp [eval_L006, hfseg, h2]
    · rw [eval_L006_decomp _ (by rw [hfseg]; omega)]
      apply List.flatten_eq_nil_iff.mpr
      intro x hx
      rcases List.mem_map.mp hx with ⟨j, _, rfl⟩
      rw [hfseg]
      rw [List.append_eq_nil]
      cases hc : fixed[j]? with
      | none =>
        constructor
        · unfold child_before_viol; rw [hc]
        · unfold child_after_viol; rw [hc]
      | some c =>
        by_cases hw : c.is_whitespace = true
        · constructor
          · unfold child_before_viol; rw [hc]; simp [hw]
          · unfold child_after_viol; rw [hc]; simp [hw]
        · simp only [Bool.not_eq_true] at hw
          obtain ⟨j₀, b, hb, hbc, htake, hdrop⟩ := expand_blocks_pos bs j c hc hw
          have hb' := hb
          rw [hbs, fix_blocks_getElem] at hb'
          rcases Option.map_eq_some'.mp hb' with ⟨c₀, hc₀, hbeq⟩
          have hcc : c₀ = c := by rw [← hbc, ← hbeq]
          rw [hcc] at hc₀
          have hb1 : b.1 = ins_count segs j₀ := by rw [← hbeq]
          by_cases hcd : c.is_code = true
          · constructor
            · -- before side
              cases hta : (target_anchors c).1 with
              | none =>
                unfold child_before_viol; rw [hc]
                simp [hw, hcd, hta]
              | some ba =>
                rw [child_before_viol_eq fixed j c ba hc hw hcd hta]
                rw [before_check_viol_eq_nil_iff]
                intro prev hprev
                rw [htake, List.reverse_append, List.reverse_replicate,
                  first_non_indent_replicate_space] at hprev
                by_cases hz : b.1 = 0
                · rw [if_pos hz] at hprev
                  rcases scan_back_expand (bs.take j₀) with hsc | hsc
                  · rw [hsc] at hprev
                    rw [← Option.some_inj.mp hprev]
                    exact space_gap_false.1
                  · rw [hsc] at hprev
                    have hmap : (bs.take j₀).map Prod.snd = segs.take j₀ := by
                      rw [List.map_take, hbs, fix_blocks_map_snd]
                    rw [hmap] at hprev
                    have hins0 : ins_count segs j₀ = 0 := by rw [← hb1, hz]
                    have hbe : (child_before_viol segs j₀).isEmpty = true := by
                      by_contra hcon
                      simp only [Bool.not_eq_true] at hcon
                      have := ins_count_pos_of_before segs j₀ hcon
                      omega
                    have hbe' : child_before_viol segs j₀ = [] :=
                      list_isEmpty_eq_nil _ hbe
                    rw [child_before_viol_eq segs j₀ c ba hc₀ hw hcd hta] at hbe'
                    rw [before_check_viol_eq_nil_iff] at hbe'
                    exact hbe' prev hprev
                · rw [if_neg hz] at hprev
                  rw [← Option.some_inj.mp hprev]
                  exact space_gap_false.1
            · -- after side
              cases hta : (target_anchors c).2 with
              | none =>
                unfold child_after_viol; rw [hc]
                simp [hw, hcd, hta]
              | some aa =>
                rw [child_after_viol_eq fixed j c aa hc hw hcd hta]
                rw [after_check_viol_eq_nil_iff]
                intro nxt hnxt
                rw [hdrop] at hnxt
                rcases scan_fwd_expand (bs.drop (j₀ + 1)) with hsc | ⟨hsc, hcnt⟩
                · rw [hsc] at hnxt
                  rw [← Option.some_inj.mp hnxt]
                  exact space_gap_false.2
                · have hmap : (bs.drop (j₀ + 1)).map Prod.snd = segs.drop (j₀ + 1) := by
                    rw [List.map_drop, hbs, fix_blocks_map_snd]
                  rw [hsc, hmap] at hnxt
                  rw [hmap] at hcnt
                  by_cases hae : (child_after_viol segs j₀).isEmpty = true
                  · have hae' : child_after_viol segs j₀ = [] :=
                      list_isEmpty_eq_nil _ hae
                    rw [child_after_viol_eq segs j₀ c aa hc₀ hw hcd hta] at hae'
                    rw [after_check_viol_eq_nil_iff] at hae'
                    exact hae' nxt hnxt
                  · simp only [Bool.not_eq_true] at hae
                    exfalso
                    have hidxs : idx_non_indent (segs.drop (j₀ + 1)) ≠ none := by
                      intro hnone
                      rw [idx_non_indent_none_iff] at hnone
                      rw [hnone] at hnxt
                      exact Option.noConfusion hnxt
                    obtain ⟨k, hk⟩ := Option.ne_none_iff_exists'.mp hidxs
                    have hnti : next_target_idx segs j₀ = some (j₀ + 1 + k) := by
                      unfold next_target_idx
                      rw [hk]
                      rfl
                    have hge := ins_count_pos_of_after segs j₀ (j₀ + 1 + k) hae hnti
                    rcases hcnt k hk with ⟨b', hb'2, hbz⟩
                    rw [List.getElem?_drop, hbs, fix_blocks_getElem] at hb'2
                    rcases Option.map_eq_some'.mp hb'2 with ⟨c₂, _, hc₂b⟩
                    rw [← hc₂b] at hbz
                    simp only at hbz
                    omega
          · simp only [Bool.not_eq_true] at hcd
            constructor
            · unfold child_before_viol; rw [hc]; simp [hw, hcd]
            · unfold child_after_viol; rw [hc]; simp [hw, hcd]

end L006
